import Mathlib

/-!
Verification of the cart state container, checkout loop and CSV import
mapper of the vibeflex storefront (frontend/src/App.js and
frontend/src/components/SupplierManagement.js), shallowly embedded in Lean.

Modelling conventions:
* JS product/cart objects are records; the spread `{ ...product, quantity }`
  copies the displayable fields and sets the quantity.
* JS numbers holding prices are modelled as rationals; line quantities are
  integers.
* JS string operations used by the CSV importer (`split` on a one-character
  separator, `trim`, `replace(/"/g, '')`) are embedded as character-list
  functions with the same semantics.
-/

/-- Displayable product record as consumed by `addToCart` (id, name, price). -/
structure Product where
  id : String
  name : String
  price : ℚ
  deriving DecidableEq, Repr

/-- One cart line: the product's displayable fields copied at add-time plus
the quantity (`{ ...product, quantity }` in App.js). -/
structure CartLine where
  id : String
  name : String
  price : ℚ
  quantity : ℤ
  deriving DecidableEq, Repr

/-- Whether some line of the cart carries the given product id
(the truthiness test on `prev.find(item => item.id === product.id)`). -/
def hasId (cart : List CartLine) (pid : String) : Bool :=
  cart.any (fun item => item.id == pid)

/-- App.js `addToCart(product, quantity)`: if a line with the product's id
exists, map over the cart incrementing the matching line's quantity;
otherwise append a new line copying the product's fields. -/
def addToCart (cart : List CartLine) (product : Product) (quantity : ℤ) :
    List CartLine :=
  if hasId cart product.id then
    cart.map (fun item =>
      if item.id == product.id then
        { item with quantity := item.quantity + quantity }
      else item)
  else
    cart ++ [{ id := product.id, name := product.name, price := product.price,
               quantity := quantity }]

/-- App.js `removeFromCart(productId)`: filter out lines with that id. -/
def removeFromCart (cart : List CartLine) (productId : String) :
    List CartLine :=
  cart.filter (fun item => item.id != productId)

/-- App.js `updateQuantity(productId, quantity)`: for a non-positive quantity
delegate to `removeFromCart`; otherwise map over the cart replacing the
matching line's quantity. -/
def updateQuantity (cart : List CartLine) (productId : String) (quantity : ℤ) :
    List CartLine :=
  if quantity ≤ 0 then
    removeFromCart cart productId
  else
    cart.map (fun item =>
      if item.id == productId then { item with quantity := quantity }
      else item)

/-- App.js `getTotalItems()`: left fold summing quantities from 0. -/
def getTotalItems (cart : List CartLine) : ℤ :=
  cart.foldl (fun total item => total + item.quantity) 0

/-- App.js `getTotalPrice()`: left fold summing `price * quantity` from 0. -/
def getTotalPrice (cart : List CartLine) : ℚ :=
  cart.foldl (fun total item => total + item.price * (item.quantity : ℚ)) 0

/-- App.js `clearCart()`: the empty cart. -/
def clearCart : List CartLine := []

/-- The four cart mutations offered by the cart provider. -/
inductive CartOp where
  | add (p : Product) (q : ℤ)
  | remove (pid : String)
  | setQty (pid : String) (q : ℤ)
  | clear
  deriving DecidableEq, Repr

/-- Apply one cart operation to a cart state. -/
def applyOp (cart : List CartLine) : CartOp → List CartLine
  | .add p q => addToCart cart p q
  | .remove pid => removeFromCart cart pid
  | .setQty pid q => updateQuantity cart pid q
  | .clear => clearCart

/-- Run a sequence of cart operations starting from the empty cart
(the provider mounts with `useState([])`). -/
def applyOps (ops : List CartOp) : List CartLine :=
  ops.foldl applyOp []

/-- Whether an operation is an `add` with positive quantity, or any other
operation (used to restrict operation sequences). -/
def addQtyPos : CartOp → Bool
  | .add _ q => decide (0 < q)
  | _ => true

/-- Run a sequence of `addToCart` calls starting from the empty cart. -/
def applyAdds (adds : List (Product × ℤ)) : List CartLine :=
  adds.foldl (fun cart pq => addToCart cart pq.1 pq.2) []

/-- The product ids of the cart lines, in cart order. -/
def cartIds (cart : List CartLine) : List String :=
  cart.map (fun l => l.id)

/-- The data-model invariant: at most one cart line per product id. -/
def ValidCart (cart : List CartLine) : Prop :=
  (cartIds cart).Nodup

instance (cart : List CartLine) : Decidable (ValidCart cart) := by
  unfold ValidCart; infer_instance

/-! ## Checkout loop (App.js `Checkout.handleSubmit`) -/

/-- The customer-information form state collected at checkout. -/
structure CustomerInfo where
  name : String
  email : String
  address : String
  city : String
  zipCode : String
  phone : String
  deriving DecidableEq, Repr

/-- Body of one `POST /orders` request issued by the checkout loop. -/
structure OrderReq where
  customer_name : String
  customer_email : String
  product_id : String
  quantity : ℤ
  total_amount : ℚ
  deriving DecidableEq, Repr

/-- The order-creation request built from one cart line in `handleSubmit`. -/
def mkOrderReq (info : CustomerInfo) (item : CartLine) : OrderReq :=
  { customer_name := info.name
    customer_email := info.email
    product_id := item.id
    quantity := item.quantity
    total_amount := item.price * (item.quantity : ℚ) }

/-- The `for (const item of cartItems)` loop of `handleSubmit`: posts one
order per line in cart order; `ok i` tells whether the i-th post (0-based,
counted over the whole loop) succeeds. Returns the successfully persisted
requests and whether the whole loop completed; the first failing post aborts
the loop (the `await` throws into the surrounding `catch`). -/
def checkoutLoop (info : CustomerInfo) (ok : ℕ → Bool) :
    ℕ → List CartLine → List OrderReq × Bool
  | _, [] => ([], true)
  | i, item :: rest =>
    if ok i then
      let r := checkoutLoop info ok (i + 1) rest
      (mkOrderReq info item :: r.1, r.2)
    else
      ([], false)

/-- App.js `handleSubmit`: run the order loop over the cart; on full success
clear the cart (then navigate), on any failure leave the cart untouched
(the catch branch only alerts). Returns the persisted requests and the cart
state afterwards. -/
def handleSubmitCheckout (info : CustomerInfo) (cart : List CartLine)
    (ok : ℕ → Bool) : List OrderReq × List CartLine :=
  let r := checkoutLoop info ok 0 cart
  (r.1, if r.2 then clearCart else cart)

/-! ## CSV import mapper (SupplierManagement.js `handleFileUpload`) -/

/-- JS `String.prototype.split` with a one-character separator, on character
lists: `""` splits to `[""]`, and separators at the ends produce empty
fields, exactly as in JS. -/
def splitOnChar (c : Char) : List Char → List (List Char)
  | [] => [[]]
  | x :: xs =>
    let r := splitOnChar c xs
    if x = c then [] :: r
    else
      match r with
      | [] => [[x]]
      | y :: ys => (x :: y) :: ys

/-- JS `split` lifted to strings. -/
def jsSplit (c : Char) (s : String) : List String :=
  (splitOnChar c s.data).map (fun l => String.mk l)

/-- The character set removed by JS `String.prototype.trim`: WhiteSpace
(tab, vertical tab, form feed, space, NBSP, BOM and the Unicode space
separators) plus LineTerminator (LF, CR, LS, PS). -/
def jsWhitespace (c : Char) : Bool :=
  decide (c.val = 0x9 ∨ c.val = 0xA ∨ c.val = 0xB ∨ c.val = 0xC ∨
    c.val = 0xD ∨ c.val = 0x20 ∨ c.val = 0xA0 ∨ c.val = 0x1680 ∨
    (0x2000 ≤ c.val ∧ c.val ≤ 0x200A) ∨
    c.val = 0x2028 ∨ c.val = 0x2029 ∨ c.val = 0x202F ∨ c.val = 0x205F ∨
    c.val = 0x3000 ∨ c.val = 0xFEFF)

/-- JS `String.prototype.trim`: drop JS whitespace from both ends. -/
def jsTrim (s : String) : String :=
  String.mk (((s.data.dropWhile jsWhitespace).reverse.dropWhile
    jsWhitespace).reverse)

/-- JS `replace(/"/g, '')`: delete every double-quote character. -/
def stripQuotes (s : String) : String :=
  String.mk (s.data.filter (fun ch => ch ≠ '"'))

/-- The per-field normalization `v => v.trim().replace(/"/g, '')` applied to
every comma-split field of the header row and of every data line. -/
def stripField (s : String) : String :=
  stripQuotes (jsTrim s)

/-- Comma-split a CSV line and normalize each field
(`line.split(',').map(v => v.trim().replace(/"/g, ''))`). -/
def splitFields (line : String) : List String :=
  (jsSplit ',' line).map stripField

/-- One JS object assignment `row[k] = v` on an ordered string-keyed object:
if the key is already present its value is overwritten in place (the key
keeps its original position), otherwise the pair is appended. -/
def objInsert (row : List (String × String)) (k v : String) :
    List (String × String) :=
  if row.any (fun p => p.1 == k) then
    row.map (fun p => if p.1 == k then (k, v) else p)
  else
    row ++ [(k, v)]

/-- Build one row object: `headers.forEach((header, index) => row[header] =
values[index] || '')`, as a fold of object assignments over the indexed
headers. A missing index or an empty-string value (both falsy under `||`)
yields `""`; a duplicated header is overwritten, so only the last column's
value survives, at the header's first position. -/
def mkRow (headers values : List String) : List (String × String) :=
  headers.enum.foldl (fun row p => objInsert row p.2 (values.getD p.1 "")) []

/-- The `for (let i = 1; ...)` loop over the data lines: each line that is
non-blank after trimming contributes one row. -/
def parseRows (headers : List String) : List String →
    List (List (String × String))
  | [] => []
  | line :: rest =>
    if jsTrim line ≠ "" then
      mkRow headers (splitFields line) :: parseRows headers rest
    else
      parseRows headers rest

/-- The CSV parse of `handleFileUpload`: split the text on newlines, take the
normalized comma-split of the first line as headers, and build one row per
non-blank subsequent line. -/
def parseCSV (csvContent : String) : List (List (String × String)) :=
  let lines := jsSplit '\n' csvContent
  let headers := splitFields (lines.headD "")
  parseRows headers (lines.drop 1)

/-! ## Helper lemmas about the cart -/

lemma foldl_add_quantity (cart : List CartLine) (init : ℤ) :
    cart.foldl (fun total item => total + item.quantity) init
      = init + (cart.map (fun l => l.quantity)).sum := by
  induction cart generalizing init with
  | nil => simp
  | cons x xs ih => simp [ih]; ring

lemma getTotalItems_eq_sum (cart : List CartLine) :
    getTotalItems cart = (cart.map (fun l => l.quantity)).sum := by
  simp [getTotalItems, foldl_add_quantity]

lemma foldl_add_price (cart : List CartLine) (init : ℚ) :
    cart.foldl (fun total item => total + item.price * (item.quantity : ℚ)) init
      = init + (cart.map (fun l => l.price * (l.quantity : ℚ))).sum := by
  induction cart generalizing init with
  | nil => simp
  | cons x xs ih => simp [ih]; ring

lemma getTotalPrice_eq_sum (cart : List CartLine) :
    getTotalPrice cart = (cart.map (fun l => l.price * (l.quantity : ℚ))).sum := by
  simp [getTotalPrice, foldl_add_price]

lemma hasId_eq_false_iff (cart : List CartLine) (pid : String) :
    hasId cart pid = false ↔ ∀ x ∈ cart, x.id ≠ pid := by
  simp [hasId, List.any_eq_false]

lemma hasId_eq_true_iff (cart : List CartLine) (pid : String) :
    hasId cart pid = true ↔ ∃ x ∈ cart, x.id = pid := by
  simp [hasId, List.any_eq_true]

/-- In a valid cart that contains the product id, the cart splits as a
prefix without the id, the unique matching line, and a suffix without it. -/
lemma exists_split_of_hasId (cart : List CartLine) (pid : String)
    (hv : ValidCart cart) (h : hasId cart pid = true) :
    ∃ l₁ item l₂, cart = l₁ ++ item :: l₂ ∧ item.id = pid ∧
      (∀ x ∈ l₁, x.id ≠ pid) ∧ (∀ x ∈ l₂, x.id ≠ pid) := by
  induction cart with
  | nil => simp [hasId] at h
  | cons hd tl ih =>
    have hv' : (hd.id ∉ cartIds tl) ∧ (cartIds tl).Nodup := by
      simpa [ValidCart, cartIds, List.nodup_cons] using hv
    by_cases hhd : hd.id = pid
    · refine ⟨[], hd, tl, by simp, hhd, by simp, ?_⟩
      intro x hx hxid
      exact hv'.1 (by
        simpa [cartIds, hhd, hxid] using List.mem_map_of_mem (fun l => l.id) hx)
    · have htl : hasId tl pid = true := by
        rcases (hasId_eq_true_iff _ _).mp h with ⟨x, hx, hxid⟩
        rcases List.mem_cons.mp hx with rfl | hx'
        · exact absurd hxid hhd
        · exact (hasId_eq_true_iff _ _).mpr ⟨x, hx', hxid⟩
      obtain ⟨l₁, item, l₂, hcart, hid, h₁, h₂⟩ := ih hv'.2 htl
      refine ⟨hd :: l₁, item, l₂, by simp [hcart], hid, ?_, h₂⟩
      intro x hx
      rcases List.mem_cons.mp hx with rfl | hx'
      · exact hhd
      · exact h₁ x hx'

/-- Mapping an id-conditional update over a split cart touches only the
matching line. -/
lemma update_map_eq_of_split (pid : String) (g : CartLine → CartLine)
    (l₁ : List CartLine) (item : CartLine) (l₂ : List CartLine)
    (h₁ : ∀ x ∈ l₁, x.id ≠ pid) (hitem : item.id = pid)
    (h₂ : ∀ x ∈ l₂, x.id ≠ pid) :
    (l₁ ++ item :: l₂).map (fun x => if x.id == pid then g x else x)
      = l₁ ++ g item :: l₂ := by
  have e₁ : l₁.map (fun x => if x.id == pid then g x else x) = l₁ := by
    rw [List.map_congr_left (g := id) (fun a ha => by simp [h₁ a ha]),
      List.map_id]
  have e₂ : l₂.map (fun x => if x.id == pid then g x else x) = l₂ := by
    rw [List.map_congr_left (g := id) (fun a ha => by simp [h₂ a ha]),
      List.map_id]
  rw [List.map_append, List.map_cons, e₁, e₂]
  simp only [hitem, beq_self_eq_true, if_true]

/-- Mapping an id-conditional update over a cart free of the id is the
identity. -/
lemma update_map_of_not_mem (pid : String) (g : CartLine → CartLine)
    (cart : List CartLine) (h : ∀ x ∈ cart, x.id ≠ pid) :
    cart.map (fun x => if x.id == pid then g x else x) = cart := by
  rw [List.map_congr_left (g := id) (fun a ha => by simp [h a ha]),
    List.map_id]

/-- Quantity-only updates leave the cart's id list unchanged. -/
lemma cartIds_map_update (pid : String) (g : CartLine → CartLine)
    (hg : ∀ x, (g x).id = x.id) (cart : List CartLine) :
    cartIds (cart.map (fun x => if x.id == pid then g x else x))
      = cartIds cart := by
  simp only [cartIds, List.map_map]
  exact List.map_congr_left (fun a _ => by
    by_cases ha : a.id = pid <;> simp [ha, hg])

lemma validCart_addToCart (cart : List CartLine) (p : Product) (q : ℤ)
    (hv : ValidCart cart) : ValidCart (addToCart cart p q) := by
  unfold addToCart
  by_cases h : hasId cart p.id
  · simp only [h, if_true]
    unfold ValidCart
    rw [cartIds_map_update p.id
      (fun x => { x with quantity := x.quantity + q }) (fun x => rfl)]
    exact hv
  · simp only [h, Bool.false_eq_true, if_false]
    have h' : ∀ x ∈ cart, x.id ≠ p.id :=
      (hasId_eq_false_iff _ _).mp (by simpa using h)
    unfold ValidCart
    rw [cartIds, List.map_append, List.nodup_append]
    refine ⟨hv, by simp, ?_⟩
    intro a ha hb
    simp only [List.map_cons, List.map_nil, List.mem_singleton] at hb
    rcases List.mem_map.mp ha with ⟨x, hx, rfl⟩
    exact h' x hx hb

lemma validCart_removeFromCart (cart : List CartLine) (pid : String)
    (hv : ValidCart cart) : ValidCart (removeFromCart cart pid) := by
  have hsub : (removeFromCart cart pid).Sublist cart := List.filter_sublist cart
  show (List.map (fun l => l.id) (removeFromCart cart pid)).Nodup
  exact List.Nodup.sublist (hsub.map (fun l => l.id)) hv

lemma validCart_updateQuantity (cart : List CartLine) (pid : String) (q : ℤ)
    (hv : ValidCart cart) : ValidCart (updateQuantity cart pid q) := by
  unfold updateQuantity
  by_cases h : q ≤ 0
  · simpa [h] using validCart_removeFromCart cart pid hv
  · simp only [h, if_false]
    unfold ValidCart
    rw [cartIds_map_update pid (fun x => { x with quantity := q })
      (fun x => rfl)]
    exact hv

lemma validCart_applyOp (cart : List CartLine) (op : CartOp)
    (hv : ValidCart cart) : ValidCart (applyOp cart op) := by
  cases op with
  | add p q => exact validCart_addToCart cart p q hv
  | remove pid => exact validCart_removeFromCart cart pid hv
  | setQty pid q => exact validCart_updateQuantity cart pid q hv
  | clear => simp [applyOp, clearCart, ValidCart, cartIds]

lemma validCart_foldl (ops : List CartOp) :
    ∀ cart, ValidCart cart → ValidCart (ops.foldl applyOp cart) := by
  induction ops with
  | nil => intro cart hv; simpa using hv
  | cons op rest ih =>
    intro cart hv
    simpa using ih (applyOp cart op) (validCart_applyOp cart op hv)

/-- On a valid cart, one `addToCart` raises the item total by exactly the
quantity passed, merged or not. -/
lemma getTotalItems_addToCart (cart : List CartLine) (p : Product) (q : ℤ)
    (hv : ValidCart cart) :
    getTotalItems (addToCart cart p q) = getTotalItems cart + q := by
  unfold addToCart
  by_cases h : hasId cart p.id
  · simp only [h, if_true]
    obtain ⟨l₁, item, l₂, hcart, hid, h₁, h₂⟩ :=
      exists_split_of_hasId cart p.id hv h
    subst hcart
    rw [update_map_eq_of_split p.id
      (fun x => { x with quantity := x.quantity + q }) l₁ item l₂ h₁ hid h₂]
    simp [getTotalItems_eq_sum, List.sum_append]
    ring
  · simp [h, getTotalItems_eq_sum, List.sum_append]

lemma getTotalItems_foldl_adds (adds : List (Product × ℤ)) :
    ∀ cart, ValidCart cart →
      getTotalItems (adds.foldl (fun c pq => addToCart c pq.1 pq.2) cart)
        = getTotalItems cart + (adds.map (fun pq => pq.2)).sum := by
  induction adds with
  | nil => intro cart _; simp
  | cons a rest ih =>
    intro cart hv
    simp only [List.foldl_cons, List.map_cons, List.sum_cons]
    rw [ih _ (validCart_addToCart cart a.1 a.2 hv),
      getTotalItems_addToCart cart a.1 a.2 hv]
    ring

/-- Any single operation preserves positivity of all quantities, provided an
`add` carries a positive quantity. -/
lemma pos_applyOp (cart : List CartLine) (op : CartOp)
    (hcart : ∀ l ∈ cart, 0 < l.quantity) (hop : addQtyPos op = true) :
    ∀ l ∈ applyOp cart op, 0 < l.quantity := by
  cases op with
  | add p q =>
    have hq : 0 < q := by simpa [addQtyPos] using hop
    intro l hl
    unfold applyOp addToCart at hl
    by_cases h : hasId cart p.id
    · simp only [h, if_true] at hl
      rcases List.mem_map.mp hl with ⟨x, hx, rfl⟩
      have hx' := hcart x hx
      by_cases hxid : x.id = p.id
      · simp only [hxid, beq_self_eq_true, if_true]
        show 0 < x.quantity + q
        omega
      · simp only [beq_iff_eq, hxid, if_false]
        exact hx'
    · simp only [h, Bool.false_eq_true, if_false] at hl
      rcases List.mem_append.mp hl with hx | hx
      · exact hcart l hx
      · simp only [List.mem_singleton] at hx
        subst hx
        exact hq
  | remove pid =>
    intro l hl
    exact hcart l (List.mem_of_mem_filter hl)
  | setQty pid q =>
    intro l hl
    unfold applyOp updateQuantity at hl
    by_cases hq : q ≤ 0
    · simp only [hq, if_true] at hl
      exact hcart l (List.mem_of_mem_filter hl)
    · simp only [hq, if_false] at hl
      rcases List.mem_map.mp hl with ⟨x, hx, rfl⟩
      have hx' := hcart x hx
      by_cases hxid : x.id = pid
      · simp only [hxid, beq_self_eq_true, if_true]
        show 0 < q
        omega
      · simp only [beq_iff_eq, hxid, if_false]
        exact hx'
  | clear =>
    intro l hl
    simp [applyOp, clearCart] at hl

lemma pos_foldl (ops : List CartOp) :
    ∀ cart, (∀ l ∈ cart, 0 < l.quantity) →
      (∀ op ∈ ops, addQtyPos op = true) →
      ∀ l ∈ ops.foldl applyOp cart, 0 < l.quantity := by
  induction ops with
  | nil => intro cart hc _; simpa using hc
  | cons op rest ih =>
    intro cart hc hops
    simp only [List.foldl_cons]
    exact ih _ (pos_applyOp cart op hc (hops op (by simp)))
      (fun o ho => hops o (by simp [ho]))

/-! ## Helper lemmas about the checkout loop -/

lemma checkoutLoop_all_ok (info : CustomerInfo) (ok : ℕ → Bool) :
    ∀ (items : List CartLine) (start : ℕ),
      (∀ j, j < items.length → ok (start + j) = true) →
      checkoutLoop info ok start items = (items.map (mkOrderReq info), true) := by
  intro items
  induction items with
  | nil => intro start _; rfl
  | cons item rest ih =>
    intro start h
    have h0 : ok start = true := by simpa using h 0 (by simp)
    have hrest : ∀ j, j < rest.length → ok (start + 1 + j) = true := by
      intro j hj
      have := h (j + 1) (by simpa using Nat.succ_lt_succ hj)
      rwa [show start + 1 + j = start + (j + 1) by omega]
    simp [checkoutLoop, h0, ih (start + 1) hrest]

lemma checkoutLoop_fail (info : CustomerInfo) (ok : ℕ → Bool) :
    ∀ (items : List CartLine) (start N : ℕ), N < items.length →
      ok (start + N) = false → (∀ j, j < N → ok (start + j) = true) →
      checkoutLoop info ok start items
        = ((items.map (mkOrderReq info)).take N, false) := by
  intro items
  induction items with
  | nil => intro start N hN _ _; simp at hN
  | cons item rest ih =>
    intro start N hN hfail hok
    cases N with
    | zero =>
      have h0 : ok start = false := by simpa using hfail
      simp [checkoutLoop, h0]
    | succ M =>
      have h0 : ok start = true := by simpa using hok 0 (Nat.succ_pos M)
      have hfail' : ok (start + 1 + M) = false := by
        rwa [show start + 1 + M = start + (M + 1) by omega]
      have hok' : ∀ j, j < M → ok (start + 1 + j) = true := by
        intro j hj
        have := hok (j + 1) (by omega)
        rwa [show start + 1 + j = start + (j + 1) by omega]
      have hM : M < rest.length := by simpa using hN
      simp [checkoutLoop, h0, ih (start + 1) M hM hfail' hok',
        List.take_succ_cons]

/-! ## Helper lemmas about the CSV mapper -/

lemma parseRows_eq_filter_map (headers : List String) (ls : List String) :
    parseRows headers ls =
      (ls.filter (fun line => jsTrim line != "")).map
        (fun line => mkRow headers (splitFields line)) := by
  induction ls with
  | nil => rfl
  | cons l rest ih =>
    by_cases h : jsTrim l = "" <;>
      simp [parseRows, h, List.filter_cons, ih]

lemma stripField_quote_free (s : String) : '"' ∉ (stripField s).data := by
  show '"' ∉ List.filter (fun ch => decide (ch ≠ '"')) (jsTrim s).data
  intro h
  simpa using (List.mem_filter.mp h).2

lemma mem_splitFields (v : String) (line : String) (hv : v ∈ splitFields line) :
    '"' ∉ v.data := by
  rcases List.mem_map.mp hv with ⟨raw, _, rfl⟩
  exact stripField_quote_free raw

/-- A property holding of all pairs of an object and of the assigned pair
holds of all pairs after one object assignment. -/
lemma objInsert_pairs (P : String × String → Prop)
    (row : List (String × String)) (k v : String)
    (hr : ∀ pr ∈ row, P pr) (hkv : P (k, v)) :
    ∀ pr ∈ objInsert row k v, P pr := by
  intro pr hpr
  unfold objInsert at hpr
  by_cases h : row.any (fun p => p.1 == k)
  · simp only [h, if_true] at hpr
    rcases List.mem_map.mp hpr with ⟨x, hx, rfl⟩
    by_cases hxk : x.1 = k
    · simp only [hxk, beq_self_eq_true, if_true]
      exact hkv
    · simp only [beq_iff_eq, hxk, if_false]
      exact hr x hx
  · simp only [h, Bool.false_eq_true, if_false] at hpr
    rcases List.mem_append.mp hpr with hx | hx
    · exact hr pr hx
    · simp only [List.mem_singleton] at hx
      subst hx
      exact hkv

lemma foldl_objInsert_pairs (values : List String)
    (P : String × String → Prop) :
    ∀ (l : List (ℕ × String)) (r : List (String × String)),
      (∀ pr ∈ r, P pr) →
      (∀ q ∈ l, P (q.2, values.getD q.1 "")) →
      ∀ pr ∈ l.foldl (fun row p => objInsert row p.2 (values.getD p.1 "")) r,
        P pr := by
  intro l
  induction l with
  | nil => intro r hr _; simpa using hr
  | cons q rest ih =>
    intro r hr hl
    simp only [List.foldl_cons]
    exact ih _ (objInsert_pairs P r q.2 (values.getD q.1 "") hr
      (hl q (by simp))) (fun x hx => hl x (by simp [hx]))

/-- Folding object assignments for pairwise-fresh keys only appends. -/
lemma foldl_objInsert_fresh (values : List String) :
    ∀ (headers : List String) (n : ℕ) (r : List (String × String)),
      headers.Nodup → (∀ p ∈ r, p.1 ∉ headers) →
      (List.enumFrom n headers).foldl
          (fun row p => objInsert row p.2 (values.getD p.1 "")) r
        = r ++ (List.enumFrom n headers).map
            (fun p => (p.2, values.getD p.1 "")) := by
  intro headers
  induction headers with
  | nil => intro n r _ _; simp
  | cons h t ih =>
    intro n r hnd hr
    have hfresh : (r.any (fun p => p.1 == h)) = false := by
      rw [List.any_eq_false]
      intro p hp
      simp only [beq_iff_eq]
      intro e
      exact hr p hp (by rw [e]; exact List.mem_cons_self h t)
    have hins : objInsert r h (values.getD n "")
        = r ++ [(h, values.getD n "")] := by
      simp [objInsert, hfresh]
    simp only [List.enumFrom_cons, List.foldl_cons, List.map_cons, hins]
    rw [ih (n + 1) (r ++ [(h, values.getD n "")]) (List.Nodup.of_cons hnd)
      ?fresh]
    · simp
    case fresh =>
      intro p hp
      rcases List.mem_append.mp hp with hp' | hp'
      · exact fun e => hr p hp' (List.mem_cons_of_mem h e)
      · simp only [List.mem_singleton] at hp'
        subst hp'
        exact (List.nodup_cons.mp hnd).1

/-- With pairwise-distinct headers, the row object is exactly the pairing of
each header with the value at its column index. -/
lemma mkRow_eq_of_nodup (headers values : List String) (h : headers.Nodup) :
    mkRow headers values
      = headers.enum.map (fun p => (p.2, values.getD p.1 "")) := by
  unfold mkRow
  rw [show headers.enum = List.enumFrom 0 headers from rfl]
  simpa using foldl_objInsert_fresh values headers 0 [] h (by simp)

/-! ## Claim theorems -/

/-- C1: on a valid cart, if a line with the product's id exists, `addToCart`
leaves a single line for that id whose quantity is the old quantity plus the
quantity passed, all other lines unchanged in place; if no line with the id
exists, it appends a new line copying the product's fields with the given
quantity; in particular adding quantity 2 then 3 of the same product to an
empty cart yields one line with quantity 5. -/
theorem addToCart_merges_or_appends (cart : List CartLine) (p : Product)
    (q : ℤ) (hv : ValidCart cart) :
    (hasId cart p.id = true →
      ∃ l₁ item l₂, cart = l₁ ++ item :: l₂ ∧ item.id = p.id ∧
        (∀ x ∈ l₁, x.id ≠ p.id) ∧ (∀ x ∈ l₂, x.id ≠ p.id) ∧
        addToCart cart p q
          = l₁ ++ { item with quantity := item.quantity + q } :: l₂)
    ∧ (hasId cart p.id = false →
        addToCart cart p q = cart ++
          [{ id := p.id, name := p.name, price := p.price, quantity := q }])
    ∧ (∀ p' : Product, addToCart (addToCart [] p' 2) p' 3 =
        [{ id := p'.id, name := p'.name, price := p'.price, quantity := 5 }]) := by
  refine ⟨?_, ?_, ?_⟩
  · intro h
    obtain ⟨l₁, item, l₂, hcart, hid, h₁, h₂⟩ :=
      exists_split_of_hasId cart p.id hv h
    refine ⟨l₁, item, l₂, hcart, hid, h₁, h₂, ?_⟩
    unfold addToCart
    rw [if_pos h]
    subst hcart
    exact update_map_eq_of_split p.id
      (fun x => { x with quantity := x.quantity + q }) l₁ item l₂ h₁ hid h₂
  · intro h
    unfold addToCart
    simp [h]
  · intro p'
    simp [addToCart, hasId]

/-- C1 witness: concrete merge of quantity 3 into an existing line holding
quantity 2. -/
theorem addToCart_merges_or_appends_witness :
    ∃ l₁ item l₂,
      [{ id := "a", name := "n", price := 5, quantity := 2 }]
        = l₁ ++ item :: l₂ ∧
      item.id = "a" ∧ (∀ x ∈ l₁, x.id ≠ "a") ∧ (∀ x ∈ l₂, x.id ≠ "a") ∧
      addToCart [{ id := "a", name := "n", price := 5, quantity := 2 }]
          { id := "a", name := "n", price := 5 } 3
        = l₁ ++ { item with quantity := item.quantity + 3 } :: l₂ :=
  (addToCart_merges_or_appends
    [{ id := "a", name := "n", price := 5, quantity := 2 }]
    { id := "a", name := "n", price := 5 } 3 (by decide)).1 (by decide)

/-- C2: every sequence of cart operations applied to the initially empty cart
yields a cart with at most one line per product id. -/
theorem applyOps_validCart (ops : List CartOp) : ValidCart (applyOps ops) :=
  validCart_foldl ops [] (by simp [ValidCart, cartIds])

/-- C3 counterexample: `addToCart` with quantity 0 (an integer allowed by the
claim) keeps a line with non-positive quantity instead of removing it. -/
theorem addToCart_keeps_nonpositive_quantity :
    ∃ l, l ∈ applyOps [CartOp.add { id := "a", name := "w", price := 10 } 0]
      ∧ l.quantity ≤ 0 :=
  ⟨{ id := "a", name := "w", price := 10, quantity := 0 }, by decide, by decide⟩

/-- C3 amended: if every `addItem` in the sequence carries a positive
quantity, every line of the resulting cart has a positive quantity
(`setQuantity` and `removeItem` remain unrestricted: a drop to zero or below
removes the line). -/
theorem applyOps_pos_quantity (ops : List CartOp)
    (h : ∀ op ∈ ops, addQtyPos op = true) :
    ∀ l ∈ applyOps ops, 0 < l.quantity :=
  pos_foldl ops [] (by simp) h

/-- C3 amended witness: a concrete positive-quantity run. -/
theorem applyOps_pos_quantity_witness :
    0 < ({ id := "a", name := "w", price := 10, quantity := 2 } :
      CartLine).quantity :=
  applyOps_pos_quantity
    [CartOp.add { id := "a", name := "w", price := 10 } 2] (by decide)
    { id := "a", name := "w", price := 10, quantity := 2 } (by decide)

/-- C4: on a valid cart, `updateQuantity` with non-positive quantity equals
`removeFromCart`; with positive quantity and the id absent it is the
identity; with positive quantity and the id present it replaces exactly the
matching line's quantity, all other lines unchanged in place. -/
theorem updateQuantity_spec (cart : List CartLine) (pid : String) (q : ℤ)
    (hv : ValidCart cart) :
    (q ≤ 0 → updateQuantity cart pid q = removeFromCart cart pid)
    ∧ (0 < q → hasId cart pid = false → updateQuantity cart pid q = cart)
    ∧ (0 < q → hasId cart pid = true →
        ∃ l₁ item l₂, cart = l₁ ++ item :: l₂ ∧ item.id = pid ∧
          (∀ x ∈ l₁, x.id ≠ pid) ∧ (∀ x ∈ l₂, x.id ≠ pid) ∧
          updateQuantity cart pid q = l₁ ++ { item with quantity := q } :: l₂) := by
  refine ⟨?_, ?_, ?_⟩
  · intro hq
    simp [updateQuantity, hq]
  · intro hq habs
    have h' : ∀ x ∈ cart, x.id ≠ pid := (hasId_eq_false_iff _ _).mp habs
    unfold updateQuantity
    rw [if_neg (show ¬ q ≤ 0 by omega)]
    exact update_map_of_not_mem pid _ cart h'
  · intro hq hpres
    obtain ⟨l₁, item, l₂, hcart, hid, h₁, h₂⟩ :=
      exists_split_of_hasId cart pid hv hpres
    refine ⟨l₁, item, l₂, hcart, hid, h₁, h₂, ?_⟩
    unfold updateQuantity
    rw [if_neg (show ¬ q ≤ 0 by omega)]
    subst hcart
    exact update_map_eq_of_split pid (fun x => { x with quantity := q })
      l₁ item l₂ h₁ hid h₂

/-- C4 witness: concrete replacement of an existing line's quantity by 5. -/
theorem updateQuantity_spec_witness :
    ∃ l₁ item l₂,
      [{ id := "a", name := "n", price := 2, quantity := 3 }]
        = l₁ ++ item :: l₂ ∧
      item.id = "a" ∧ (∀ x ∈ l₁, x.id ≠ "a") ∧ (∀ x ∈ l₂, x.id ≠ "a") ∧
      updateQuantity [{ id := "a", name := "n", price := 2, quantity := 3 }]
          "a" 5
        = l₁ ++ { item with quantity := 5 } :: l₂ :=
  (updateQuantity_spec [{ id := "a", name := "n", price := 2, quantity := 3 }]
    "a" 5 (by decide)).2.2 (by decide) (by decide)

/-- C5: after any sequence of `addToCart` calls on the initially empty cart,
the item total equals the sum of all quantities passed; on the empty cart it
is 0. -/
theorem getTotalItems_applyAdds (adds : List (Product × ℤ)) :
    getTotalItems (applyAdds adds) = (adds.map (fun pq => pq.2)).sum
    ∧ getTotalItems clearCart = 0 := by
  constructor
  · unfold applyAdds
    rw [getTotalItems_foldl_adds adds [] (by simp [ValidCart, cartIds])]
    simp [getTotalItems]
  · rfl

/-- C6 counterexample: on duplicated headers the row object's later
assignment overwrites the earlier one, so the row for `"a,a\n1,2"` is the
single pair `("a", "2")` — the header at column 0 is not mapped to its
column's value `"1"`, contradicting the claim's per-column-index mapping. -/
theorem parseCSV_duplicate_header_loses_value :
    parseCSV "a,a\n1,2" = [[("a", "2")]]
      ∧ ("a", "1") ∉ [(("a" : String), ("2" : String))] :=
  ⟨by decide, by decide⟩

/-- C6 amended: the CSV parse builds one row per non-blank line after the
header line, in order; when the headers are pairwise distinct the row pairs
each header, by column index, with the value at that index (missing value
gives the empty string, values beyond the header count are dropped); a
duplicated header keeps a single entry holding its last column's value; an
empty or header-only input produces no rows; and the sample input yields
exactly the two expected rows. -/
theorem parseCSV_rows_spec :
    (∀ csv : String, parseCSV csv =
      (((jsSplit '\n' csv).drop 1).filter (fun line => jsTrim line != "")).map
        (fun line =>
          mkRow (splitFields ((jsSplit '\n' csv).headD "")) (splitFields line)))
    ∧ (∀ headers values : List String, ∀ i : ℕ, headers.Nodup →
        (mkRow headers values)[i]? =
          Option.map (fun h => (h, values.getD i "")) headers[i]?)
    ∧ parseCSV "name,qty\nWidget,5\nGadget,2" =
        [[("name", "Widget"), ("qty", "5")], [("name", "Gadget"), ("qty", "2")]]
    ∧ parseCSV "a,a\n1,2" = [[("a", "2")]]
    ∧ parseCSV "" = [] ∧ parseCSV "name,qty" = [] ∧ parseCSV "name,qty\n" = [] := by
  refine ⟨?_, ?_, by decide, by decide, by decide, by decide, by decide⟩
  · intro csv
    simp only [parseCSV]
    exact parseRows_eq_filter_map _ _
  · intro headers values i hnd
    rw [mkRow_eq_of_nodup headers values hnd]
    cases h : headers[i]? <;>
      simp [List.getElem?_map, List.getElem?_enum, h]

/-- C6 amended witness: the per-index mapping at distinct headers, column 0
of the sample row. -/
theorem parseCSV_rows_spec_witness :
    (mkRow ["name", "qty"] ["Widget", "5"])[0]? =
      Option.map (fun h => (h, ["Widget", "5"].getD 0 ""))
        (["name", "qty"] : List String)[0]? :=
  parseCSV_rows_spec.2.1 ["name", "qty"] ["Widget", "5"] 0 (by decide)

/-- C7: checkout issues one order-creation request per cart line in cart
order, each with amount `price * quantity`; if every request succeeds, all
lines' requests are persisted and the cart is cleared; if the request for
the line at index N is the first to fail, exactly the requests for the
earlier lines are persisted and the cart is left unchanged. -/
theorem checkout_per_line (info : CustomerInfo) (cart : List CartLine)
    (ok : ℕ → Bool) :
    ((∀ i, i < cart.length → ok i = true) →
      handleSubmitCheckout info cart ok
        = (cart.map (mkOrderReq info), clearCart))
    ∧ (∀ N, N < cart.length → ok N = false → (∀ i, i < N → ok i = true) →
        handleSubmitCheckout info cart ok
          = ((cart.map (mkOrderReq info)).take N, cart))
    ∧ (∀ item : CartLine,
        (mkOrderReq info item).total_amount
          = item.price * (item.quantity : ℚ)) := by
  refine ⟨?_, ?_, fun item => rfl⟩
  · intro h
    simp only [handleSubmitCheckout]
    rw [checkoutLoop_all_ok info ok cart 0
      (fun j hj => by simpa using h j hj)]
    simp
  · intro N hN hfail hok
    simp only [handleSubmitCheckout]
    rw [checkoutLoop_fail info ok cart 0 N hN (by simpa using hfail)
      (fun j hj => by simpa using hok j hj)]
    simp

/-- C7 witness: a two-line cart whose second request fails — only the first
request is persisted and the cart is untouched. -/
theorem checkout_per_line_witness :
    handleSubmitCheckout
        { name := "c", email := "e", address := "", city := "", zipCode := "",
          phone := "" }
        [{ id := "a", name := "x", price := 2, quantity := 1 },
         { id := "b", name := "y", price := 3, quantity := 4 }]
        (fun i => i == 0)
      = (([{ id := "a", name := "x", price := 2, quantity := 1 },
           { id := "b", name := "y", price := 3, quantity := 4 }].map
            (mkOrderReq
              { name := "c", email := "e", address := "", city := "",
                zipCode := "", phone := "" })).take 1,
         [{ id := "a", name := "x", price := 2, quantity := 1 },
          { id := "b", name := "y", price := 3, quantity := 4 }]) :=
  (checkout_per_line
    { name := "c", email := "e", address := "", city := "", zipCode := "",
      phone := "" }
    [{ id := "a", name := "x", price := 2, quantity := 1 },
     { id := "b", name := "y", price := 3, quantity := 4 }]
    (fun i => i == 0)).2.1 1 (by decide) (by decide)
    (fun i hi => by simp [Nat.lt_one_iff.mp hi])

/-- C8: the price total is the sum of `price * quantity` over all lines,
0 on the empty cart, and 30 after adding three units of a price-10 product
to the empty cart. -/
theorem getTotalPrice_spec :
    (∀ cart : List CartLine,
      getTotalPrice cart
        = (cart.map (fun l => l.price * (l.quantity : ℚ))).sum)
    ∧ getTotalPrice clearCart = 0
    ∧ getTotalPrice (addToCart [] { id := "a", name := "", price := 10 } 3)
        = 30 := by
  refine ⟨getTotalPrice_eq_sum, rfl, ?_⟩
  norm_num [getTotalPrice, addToCart, hasId]

/-- C9: on a valid cart, `removeFromCart` of an absent id is the identity;
of a present id it deletes exactly the matching line, leaving the other
lines unchanged in place. -/
theorem removeFromCart_spec (cart : List CartLine) (pid : String)
    (hv : ValidCart cart) :
    (hasId cart pid = false → removeFromCart cart pid = cart)
    ∧ (hasId cart pid = true →
        ∃ l₁ item l₂, cart = l₁ ++ item :: l₂ ∧ item.id = pid ∧
          (∀ x ∈ l₁, x.id ≠ pid) ∧ (∀ x ∈ l₂, x.id ≠ pid) ∧
          removeFromCart cart pid = l₁ ++ l₂) := by
  constructor
  · intro habs
    have h' : ∀ x ∈ cart, x.id ≠ pid := (hasId_eq_false_iff _ _).mp habs
    unfold removeFromCart
    exact List.filter_eq_self.mpr (fun a ha => by simp [h' a ha])
  · intro hpres
    obtain ⟨l₁, item, l₂, hcart, hid, h₁, h₂⟩ :=
      exists_split_of_hasId cart pid hv hpres
    refine ⟨l₁, item, l₂, hcart, hid, h₁, h₂, ?_⟩
    subst hcart
    unfold removeFromCart
    rw [List.filter_append, List.filter_cons]
    have hcond : (item.id != pid) = false := by simp [hid]
    rw [hcond]
    simp only [Bool.false_eq_true, if_false]
    rw [List.filter_eq_self.mpr (fun a ha => by simp [h₁ a ha]),
      List.filter_eq_self.mpr (fun a ha => by simp [h₂ a ha])]

/-- C9 witness: concrete deletion of the only line carrying the id. -/
theorem removeFromCart_spec_witness :
    ∃ l₁ item l₂,
      [{ id := "a", name := "n", price := 2, quantity := 3 }]
        = l₁ ++ item :: l₂ ∧
      item.id = "a" ∧ (∀ x ∈ l₁, x.id ≠ "a") ∧ (∀ x ∈ l₂, x.id ≠ "a") ∧
      removeFromCart [{ id := "a", name := "n", price := 2, quantity := 3 }]
          "a"
        = l₁ ++ l₂ :=
  (removeFromCart_spec [{ id := "a", name := "n", price := 2, quantity := 3 }]
    "a" (by decide)).2 (by decide)

/-- C10 counterexample: trimming happens before quote deletion, so a field
whose double quotes enclose whitespace keeps that whitespace: the value for
header `h` in `"h\n\" a \""` is `" a "`, which starts with a space. -/
theorem parseCSV_quoted_whitespace_kept :
    parseCSV "h\n\" a \"" = [[("h", " a ")]]
      ∧ (" a " : String).data.head? = some ' ' := by
  exact ⟨by decide, rfl⟩

/-- C10 amended: every field of every data line (and of the header line) is
normalized by trimming and then deleting every double-quote character, so no
produced header or value contains a double-quote character, and a trailing
carriage return from a CRLF line ending is removed; values may however keep
leading or trailing whitespace that was enclosed in double quotes. -/
theorem parseCSV_values_quote_free :
    (∀ csv : String, ∀ row ∈ parseCSV csv, ∀ pr ∈ row,
      '"' ∉ pr.1.data ∧ '"' ∉ pr.2.data)
    ∧ (∀ line : String, splitFields line
        = (jsSplit ',' line).map (fun f => stripQuotes (jsTrim f)))
    ∧ parseCSV "h\r\nx\r" = [[("h", "x")]] := by
  refine ⟨?_, fun line => rfl, by decide⟩
  intro csv row hrow pr hpr
  simp only [parseCSV] at hrow
  rw [parseRows_eq_filter_map] at hrow
  rcases List.mem_map.mp hrow with ⟨line, _, rfl⟩
  unfold mkRow at hpr
  refine foldl_objInsert_pairs (splitFields line)
    (fun q => '"' ∉ q.1.data ∧ '"' ∉ q.2.data)
    (splitFields ((jsSplit '\n' csv).headD "")).enum [] (by simp) ?_ pr hpr
  intro q hq
  constructor
  · have : q.2 ∈ splitFields ((jsSplit '\n' csv).headD "") := by
      have := List.mem_map_of_mem Prod.snd hq
      rwa [List.enum_map_snd] at this
    exact mem_splitFields _ _ this
  · rw [List.getD_eq_getElem?_getD]
    cases hv : (splitFields line)[q.1]? with
    | none => simp
    | some v =>
      simp only [Option.getD_some]
      exact mem_splitFields v line (List.getElem?_mem hv)


/-- C10 amended witness: the concrete CRLF parse's header and value are
quote-free. -/
theorem parseCSV_values_quote_free_witness :
    '"' ∉ ("h" : String).data ∧ '"' ∉ ("x" : String).data :=
  parseCSV_values_quote_free.1 "h\r\nx\r" [("h", "x")] (by decide)
    ("h", "x") (by decide)
